import Mathlib

/-!
Shallow embedding of the bast process-supervision subsystem (package `bast`):
mode dispatch (`parseCommandLine`), worker spawning (`doStart`), monitoring
(`checkWorkProcess`), pid bookkeeping (`logPid` / `getWorkPids` / `removePid`),
instance registry (`logMgr` / `syncMgr` / `mgrList`), stop/reload fan-out and
final cleanup (`clear`).  Go strings are modelled as `List Char`; file contents
as `Option (List Char)` (`none` = the file is missing); a Go panic as an
`Option.none` result.
-/

namespace Bast

/-- Decimal digit value to its character, as produced by Go `strconv.Itoa`. -/
def digitChar (d : Nat) : Char :=
  match d with
  | 0 => '0' | 1 => '1' | 2 => '2' | 3 => '3' | 4 => '4'
  | 5 => '5' | 6 => '6' | 7 => '7' | 8 => '8' | 9 => '9'
  | _ => '*'

/-- Character to decimal digit value; `none` for a non-digit
(the accept set of Go `strconv.Atoi` digit scanning). -/
def digitVal (c : Char) : Option Nat :=
  if '0' ≤ c ∧ c ≤ '9' then some (c.toNat - '0'.toNat) else none

/-- Fuelled digit emitter (most significant first), the shape of Go
`strconv.Itoa`; fuel-structural so that it evaluates in the kernel. -/
def itoaCore : Nat → Nat → List Char → List Char
  | 0, _, acc => acc
  | fuel + 1, n, acc =>
    if n < 10 then digitChar n :: acc
    else itoaCore fuel (n / 10) (digitChar (n % 10) :: acc)

/-- Go `strconv.Itoa` for a non-negative value: decimal digits, no sign. -/
def itoa (n : Nat) : List Char := itoaCore (n + 1) n []

/-- Go `strconv.Itoa` on `int`: a `-` sign for negative values. -/
def itoaInt (z : Int) : List Char :=
  if z < 0 then '-' :: itoa z.natAbs else itoa z.toNat

/-- Digit-folding loop of Go `strconv.Atoi`: fails on the first non-digit. -/
def parseDigitsAux : Nat → List Char → Option Nat
  | acc, [] => some acc
  | acc, c :: cs =>
    match digitVal c with
    | some d => parseDigitsAux (acc * 10 + d) cs
    | none => none

/-- Digits-only parse of a nonempty character list. -/
def parseDigits : List Char → Option Nat
  | [] => none
  | s => parseDigitsAux 0 s

/-- Go `strconv.Atoi`: optional sign, at least one digit, 64-bit range check
(`err == nil` exactly when the result is `some`). -/
def atoi (s : List Char) : Option Int :=
  match s with
  | [] => none
  | c :: cs =>
    if c = '-' then
      (parseDigits cs).bind fun n => if n ≤ 2 ^ 63 then some (-(n : Int)) else none
    else if c = '+' then
      (parseDigits cs).bind fun n => if n < 2 ^ 63 then some ((n : Int)) else none
    else
      (parseDigits (c :: cs)).bind fun n => if n < 2 ^ 63 then some ((n : Int)) else none

/-- Go `strings.Split` with a one-character separator: splits at every
occurrence, keeps empty fields, and always yields at least one field. -/
def splitOn (sep : Char) : List Char → List (List Char)
  | [] => [[]]
  | c :: cs =>
    if c = sep then [] :: splitOn sep cs
    else
      match splitOn sep cs with
      | [] => [[c]]
      | p :: ps => (c :: p) :: ps

/-- One worker entry of the master's registry (Go struct `work`): the spawn
key, the `runing` flag, and the observable data of the process handle
(`cmd.Process.Pid`, the eventual `ProcessState` exit code, and whether
`cmd.Start` succeeded). -/
structure Work where
  key : List Char
  runing : Bool
  pid : Nat
  exitCode : Int
  started : Bool
  deriving Repr, DecidableEq, Inhabited

/-- The worker-pid field written by `logPid`: for each running entry, a comma
when the entry's index is positive, then its pid — faithfully reproducing the
index-based (not emission-based) comma placement of the source loop. -/
def pidsFieldAux : Nat → List Work → List Char
  | _, [] => []
  | i, w :: ws =>
    (if w.runing then (if 0 < i then [','] else []) ++ itoa w.pid else []) ++
      pidsFieldAux (i + 1) ws

/-- Content written to `<executable>.pid` by `logPid`:
`masterPid | pipeName : pid1,pid2,...` with only running entries listed. -/
def logPidContent (masterPid : Nat) (pipeName : List Char) (cmd : List Work) : List Char :=
  itoa masterPid ++ ['|'] ++ pipeName ++ [':'] ++ pidsFieldAux 0 cmd

/-- `getWorkPids` reading the pid file.  `none` argument: the file is missing
(Go `os.Open` error is discarded, `ReadAll` on the nil handle errors, the
function returns nil — modelled `some []`).  Otherwise it splits the content
on `:` and indexes field 1 — a panic (modelled `none`) when the split has a
single field — then splits field 1 on `,` and keeps the entries `Atoi`
accepts. -/
def getWorkPids (file : Option (List Char)) : Option (List Int) :=
  match file with
  | none => some []
  | some data =>
    let cs := splitOn ':' data
    match cs.get? 1 with
    | none => none
    | some c => some ((splitOn ',' c).filterMap atoi)

/-- The pids of the running entries of a registry, as integers: the set the
pid file is meant to persist. -/
def runningPids (cmd : List Work) : List Int :=
  (cmd.filter (·.runing)).map fun w => (w.pid : Int)

/-- Observable actions of the supervision code: signals sent, sleeps,
`start()` calls, process exits, channel drains, log lines, `clear()` calls. -/
inductive Event where
  | signal (sig : Nat) (pid : Int)
  | sleep (ms : Nat)
  | startCall
  | exitProcess (code : Nat)
  | drain
  | log (msg : List Char)
  | clearCall
  deriving Repr, DecidableEq

/-- Signal number of `syscall.SIGINT`. -/
def sigint : Nat := 2

/-- `reload()`: read the pid file, send `SIGINT` to each recorded pid in
order, sleep 30 ms, call `start()`.  `none` when `getWorkPids` panics. -/
def reloadTrace (file : Option (List Char)) : Option (List Event) :=
  (getWorkPids file).map fun pids =>
    pids.map (Event.signal sigint) ++ [Event.sleep 30, Event.startCall]

/-- `stop()`: read the pid file, send `SIGINT` to each recorded pid in order,
sleep 30 ms, `os.Exit(0)` — unconditionally, with no check that any signalled
process exited.  `none` when `getWorkPids` panics. -/
def stopTrace (file : Option (List Char)) : Option (List Event) :=
  (getWorkPids file).map fun pids =>
    pids.map (Event.signal sigint) ++ [Event.sleep 30, Event.exitProcess 0]

/-- Log line of the monitor loop: note it carries the exit code only, never
the worker's key. -/
def exitMsg (code : List Char) : List Char :=
  "has work process exited,exit code=".data ++ code

/-- Drain loop of `checkWorkProcess`.  `arrival t` is the index of the unit
whose completion is the `t`-th one received on the fan-in channel; a unit's
`ProcessState` is non-nil exactly when its completion has been received.
Each iteration drains once, reads `app.cmd[i]` — indexed by the loop counter
`i`, NOT by which completion arrived — logs its exit code (empty when that
entry's process has not exited), assigns `runing = false` to a local copy of
the struct (Go value semantics: the registry slice is NOT updated), and
breaks after the first drain when `app.runing` is false. -/
def drainLoop (appRuning : Bool) (cmd : List Work) (arrival : Nat → Nat) :
    Nat → Nat → List Nat → List Event
  | 0, _, _ => []
  | rem + 1, i, exited =>
    let exited' := arrival i :: exited
    let w := cmd.getD i default
    let code := if i ∈ exited' then itoaInt w.exitCode else []
    let evs := [Event.drain, Event.log (exitMsg code)]
    -- The source's `w.runing = false` writes to the local copy `w` only.
    if appRuning then evs ++ drainLoop appRuning cmd arrival rem (i + 1) exited'
    else evs

/-- `checkWorkProcess`: spawn one wait-task per running unit (`l` of them),
drain the fan-in channel, then `clear()`.  Returns the event trace and the
registry after the loop — unchanged, because the loop mutates copies. -/
def checkWorkProcess (appRuning : Bool) (cmd : List Work) (arrival : Nat → Nat) :
    List Event × List Work :=
  let l := (cmd.filter (·.runing)).length
  (drainLoop appRuning cmd arrival l 0 [] ++ [Event.clearCall], cmd)

/-- One configured application unit (what `Confs()` yields: its key). -/
structure Conf where
  key : List Char
  deriving Repr, DecidableEq

/-- `doStart`: for each configured unit, build and start the worker command —
the `cmd.Start()` error is discarded — and append a registry entry with
`runing = true` regardless of the spawn outcome.  `spawnOk` tells whether the
start of a given key's process succeeds, `pidOf` the pid the handle reports.
Returns the error `doStart` reports to its caller (always `none`: it ends in
`return nil`) and the registry. -/
def doStart (confs : List Conf) (spawnOk : List Char → Bool) (pidOf : List Char → Nat) :
    Option (List Char) × List Work :=
  (none,
    confs.map fun c =>
      { key := c.key, runing := true, pid := pidOf c.key, exitCode := 0,
        started := spawnOk c.key })

/-- Go `unicode.IsSpace` restricted to the ASCII space characters relevant to
registry lines. -/
def isSpaceCh (c : Char) : Bool :=
  c = ' ' || c = '\t' || c = '\n' || c = '\r' || c = '\x0b' || c = '\x0c'

/-- Go `strings.TrimSpace` on a character list. -/
def trimSpace (s : List Char) : List Char :=
  ((s.dropWhile isSpaceCh).reverse.dropWhile isSpaceCh).reverse

/-- Line scan of `mgrList`: `bufio.ReadString('\n')` chunks, trimmed, blank
lines dropped. -/
def mgrLines (content : List Char) : List (List Char) :=
  ((splitOn '\n' content).map trimSpace).filter (· ≠ [])

/-- `mgrList`: nil (`none`) when `-force` is set or the registry file is
missing; otherwise the trimmed non-blank lines. -/
def mgrList (force : Bool) (file : Option (List Char)) : Option (List (List Char)) :=
  if force then none
  else
    match file with
    | none => none
    | some content => some (mgrLines content)

/-- `logMgr` acting on the registry-file content: if the current config path
`cf` already occurs in `mgrList`'s result, return with no write; otherwise
open with `O_TRUNC` under `-force` (content becomes `cf\n`) or with
`O_APPEND` otherwise (append `cf\n`, creating the file when missing). -/
def logMgr (force : Bool) (cf : List Char) (file : Option (List Char)) :
    Option (List Char) :=
  let mls := mgrList force file
  if (match mls with | some l => l.contains cf | none => false) then file
  else if force then some (cf ++ ['\n'])
  else some ((match file with | none => [] | some content => content) ++ cf ++ ['\n'])

/-- Serialisation used by `syncMgr`: each entry followed by a newline. -/
def linesJoin : List (List Char) → List Char
  | [] => []
  | l :: ls => l ++ '\n' :: linesJoin ls

/-- `syncMgr`: opens the registry file with `O_WRONLY|O_TRUNC` (no
`O_CREATE`: a missing file is an error and nothing is written) and rewrites
it from the provided list alone (`nil` list writes empty content). -/
def syncMgr (appList : Option (List (List Char))) (file : Option (List Char)) :
    Option (List Char) :=
  match file with
  | none => none
  | some _ => some (linesJoin (match appList with | none => [] | some ls => ls))

/-- `removePid` forwards `os.Remove` on `<executable>.pid`: success when the
file exists, a `*PathError` (modelled `some ()`) when it is missing.  Result:
(error, does the file exist afterwards). -/
def removePid (fileExists : Bool) : Option Unit × Bool :=
  if fileExists then (none, false) else (some (), false)

/-- The process-wide state `clear()` tears down, with effect counters so that
"at most once" is visible: `isClear` is the global guard, the counters count
executions of `logs.ClearLogger()`, `ids.IDClear()` and `removePid()`. -/
structure CleanupState where
  isClear : Bool
  logsCleared : Nat
  idsCleared : Nat
  pidRemoves : Nat
  deriving Repr, DecidableEq

/-- `clear()`: return at once when `isClear` is already set; otherwise set it
and run the three teardown effects. -/
def clear (s : CleanupState) : CleanupState :=
  if s.isClear then s
  else
    { isClear := true, logsCleared := s.logsCleared + 1,
      idsCleared := s.idsCleared + 1, pidRemoves := s.pidRemoves + 1 }

/-- The flag variables `parseCommandLine` assigns (package-level globals in
the source). -/
structure CmdFlags where
  develop : Bool := false
  start : Bool := false
  stop : Bool := false
  reload : Bool := false
  daemon : Bool := false
  uninstall : Bool := false
  force : Bool := false
  install : Bool := false
  service : Bool := false
  master : Bool := false
  name : List Char := []
  conf : List Char := []
  appkey : List Char := []
  pipe : List Char := []
  ppid : Int := 0
  deriving Repr, DecidableEq, Inhabited

/-- Line 108: a bare invocation (`len(os.Args) == 1`) turns `flagStart` on. -/
def stepNoArgs (noArgs : Bool) (g : CmdFlags) : CmdFlags :=
  if noArgs then { g with start := true } else g

/-- Lines 111-113: a non-empty `-name` implies install. -/
def stepName (g : CmdFlags) : CmdFlags :=
  if g.name ≠ [] then { g with install := true } else g

/-- Lines 114-121: when install is still off, a raw argument starting with
`-install` turns it on (`hasInstallArg` records that scan's outcome). -/
def stepScan (hasInstallArg : Bool) (g : CmdFlags) : CmdFlags :=
  if ¬g.install ∧ hasInstallArg then { g with install := true } else g

/-- Lines 122-124: install forces the worker-daemon flag off. -/
def stepInstallDaemon (g : CmdFlags) : CmdFlags :=
  if g.install then { g with daemon := false } else g

/-- Lines 125-127: develop, stop, reload, daemon, install, uninstall or
service force start off. -/
def stepStartOff (g : CmdFlags) : CmdFlags :=
  if g.develop || g.stop || g.reload || g.daemon || g.install || g.uninstall || g.service then
    { g with start := false }
  else g

/-- Lines 128-130: service implies master. -/
def stepService (g : CmdFlags) : CmdFlags :=
  if g.service then { g with master := g.service } else g

/-- The flag post-processing of `parseCommandLine` (lines 108-130), after
`flag.Parse` has filled `g` from the arguments. -/
def parseCommandLine (noArgs : Bool) (hasInstallArg : Bool) (g : CmdFlags) : CmdFlags :=
  stepService (stepStartOff (stepInstallDaemon (stepScan hasInstallArg
    (stepName (stepNoArgs noArgs g)))))

/-- The operating modes `Command()` can route to; `foreground` is the
fall-through (no command flag set: `Run` keeps serving in this process). -/
inductive Mode where
  | start | service | stop | reload | daemon | install | uninstall | foreground
  deriving Repr, DecidableEq

/-- Dispatch order of `Command()` (an if/else-if chain, so at most one branch
runs). -/
def resolveMode (g : CmdFlags) : Mode :=
  if g.start then .start
  else if g.service then .service
  else if g.stop then .stop
  else if g.reload then .reload
  else if g.daemon then .daemon
  else if g.install then .install
  else if g.uninstall then .uninstall
  else .foreground

/-- A registry of two running workers: spawn order `a` (exit code 10) then
`b` (exit code 20). -/
def wA : Work := { key := ['a'], runing := true, pid := 11, exitCode := 10, started := true }

/-- Second tracked worker, spawned after `wA`. -/
def wB : Work := { key := ['b'], runing := true, pid := 12, exitCode := 20, started := true }

/-- Completion schedule where the second-spawned unit exits first: the 0th
received completion is unit 1, the next is unit 0. -/
def swapArrival : Nat → Nat := fun t => 1 - t

/-- `k` successive `logMgr` append calls with the same config path, starting
from a missing registry file. -/
def appendN (cf : List Char) : Nat → Option (List Char)
  | 0 => none
  | k + 1 => logMgr false cf (appendN cf k)

/-! Helper lemmas: decimal digits, `itoa`, `Atoi`, `Split`. -/

theorem digitChar_spec (d : Nat) (h : d < 10) :
    digitVal (digitChar d) = some d ∧ digitChar d ≠ ':' ∧ digitChar d ≠ ',' ∧
      digitChar d ≠ '-' ∧ digitChar d ≠ '+' ∧ digitChar d ≠ '\n' ∧ digitChar d ≠ '|' := by
  interval_cases d <;> refine ⟨rfl, ?_, ?_, ?_, ?_, ?_, ?_⟩ <;> decide

theorem itoaCore_append (fuel : Nat) : ∀ n acc, itoaCore fuel n acc = itoaCore fuel n [] ++ acc := by
  induction fuel with
  | zero => intro n acc; simp [itoaCore]
  | succ fuel ih =>
    intro n acc
    simp only [itoaCore]
    by_cases h : n < 10
    · simp [h]
    · simp only [if_neg h]
      rw [ih (n / 10) (digitChar (n % 10) :: acc), ih (n / 10) [digitChar (n % 10)]]
      simp

theorem itoaCore_fuel (n : Nat) : ∀ fuel₁ fuel₂ acc, n < fuel₁ → n < fuel₂ →
    itoaCore fuel₁ n acc = itoaCore fuel₂ n acc := by
  induction n using Nat.strong_induction_on with
  | _ n ih =>
    intro fuel₁ fuel₂ acc h₁ h₂
    match fuel₁, fuel₂ with
    | f₁ + 1, f₂ + 1 =>
      simp only [itoaCore]
      by_cases h : n < 10
      · simp [h]
      · simp only [if_neg h]
        have hd : n / 10 < n := Nat.div_lt_self (by omega) (by omega)
        exact ih (n / 10) hd f₁ f₂ _ (by omega) (by omega)

theorem itoa_small (n : Nat) (h : n < 10) : itoa n = [digitChar n] := by
  simp [itoa, itoaCore, h]

theorem itoa_eq (n : Nat) (h : 10 ≤ n) : itoa n = itoa (n / 10) ++ [digitChar (n % 10)] := by
  have hd : n / 10 < n := Nat.div_lt_self (by omega) (by omega)
  show itoaCore (n + 1) n [] = itoa (n / 10) ++ [digitChar (n % 10)]
  simp only [itoaCore, if_neg (by omega : ¬ n < 10)]
  rw [itoaCore_append]
  congr 1
  exact itoaCore_fuel (n / 10) n (n / 10 + 1) [] (by omega) (by omega)

theorem itoa_ne_nil (n : Nat) : itoa n ≠ [] := by
  by_cases h : n < 10
  · simp [itoa_small n h]
  · rw [itoa_eq n (by omega)]; simp

theorem mem_itoa (n : Nat) : ∀ c ∈ itoa n, ∃ d, d < 10 ∧ c = digitChar d := by
  induction n using Nat.strong_induction_on with
  | _ n ih =>
    intro c hc
    by_cases h : n < 10
    · rw [itoa_small n h] at hc
      simp only [List.mem_singleton] at hc
      exact ⟨n, h, hc⟩
    · rw [itoa_eq n (by omega)] at hc
      rcases List.mem_append.mp hc with h1 | h2
      · exact ih (n / 10) (Nat.div_lt_self (by omega) (by omega)) c h1
      · simp only [List.mem_singleton] at h2
        exact ⟨n % 10, Nat.mod_lt _ (by omega), h2⟩

theorem comma_not_mem_itoa (n : Nat) : ',' ∉ itoa n := by
  intro h
  obtain ⟨d, hd, he⟩ := mem_itoa n ',' h
  exact (digitChar_spec d hd).2.2.1 he.symm

theorem colon_not_mem_itoa (n : Nat) : ':' ∉ itoa n := by
  intro h
  obtain ⟨d, hd, he⟩ := mem_itoa n ':' h
  exact (digitChar_spec d hd).2.1 he.symm

theorem parseAux_itoa (n : Nat) : ∀ t, parseDigitsAux 0 (itoa n ++ t) = parseDigitsAux n t := by
  induction n using Nat.strong_induction_on with
  | _ n ih =>
    intro t
    by_cases h : n < 10
    · rw [itoa_small n h]
      simp only [List.cons_append, List.nil_append, parseDigitsAux, (digitChar_spec n h).1]
      norm_num
    · have hd : n / 10 < n := Nat.div_lt_self (by omega) (by omega)
      rw [itoa_eq n (by omega), List.append_assoc, List.singleton_append,
        ih (n / 10) hd (digitChar (n % 10) :: t)]
      simp only [parseDigitsAux, (digitChar_spec (n % 10) (Nat.mod_lt _ (by omega))).1]
      congr 1
      omega

theorem parseDigits_itoa (n : Nat) : parseDigits (itoa n) = some n := by
  obtain ⟨c, cs, hcc⟩ := List.exists_cons_of_ne_nil (itoa_ne_nil n)
  have h1 : parseDigits (itoa n) = parseDigitsAux 0 (itoa n) := by rw [hcc]; rfl
  have h2 := parseAux_itoa n []
  rw [List.append_nil] at h2
  rw [h1, h2]
  rfl

theorem atoi_itoa (n : Nat) (h : n < 2 ^ 63) : atoi (itoa n) = some ((n : Int)) := by
  obtain ⟨c, cs, hcc⟩ := List.exists_cons_of_ne_nil (itoa_ne_nil n)
  have hc : c ∈ itoa n := by rw [hcc]; exact List.mem_cons_self _ _
  obtain ⟨d, hd, rfl⟩ := mem_itoa n c hc
  have hs := digitChar_spec d hd
  rw [hcc]
  show atoi (digitChar d :: cs) = some ((n : Int))
  simp only [atoi, if_neg hs.2.2.2.1, if_neg hs.2.2.2.2.1]
  rw [← hcc, parseDigits_itoa]
  simp only [Option.some_bind, if_pos h]

/-! Helper lemmas: `splitOn`. -/

theorem splitOn_ne_nil (sep : Char) (s : List Char) : splitOn sep s ≠ [] := by
  induction s with
  | nil => simp [splitOn]
  | cons c cs ih =>
    simp only [splitOn]
    by_cases h : c = sep
    · simp [h]
    · simp only [if_neg h]
      rcases hs : splitOn sep cs with _ | ⟨p, ps⟩
      · simp
      · simp

theorem splitOn_no_sep (sep : Char) (s : List Char) (h : sep ∉ s) : splitOn sep s = [s] := by
  induction s with
  | nil => rfl
  | cons c cs ih =>
    have hc : ¬ c = sep := fun e => h (e ▸ List.mem_cons_self c cs)
    have hcs : sep ∉ cs := fun m => h (List.mem_cons_of_mem _ m)
    simp only [splitOn, if_neg hc, ih hcs]

theorem splitOn_sep_append (sep : Char) (a b : List Char) (h : sep ∉ a) :
    splitOn sep (a ++ sep :: b) = a :: splitOn sep b := by
  induction a with
  | nil => simp [splitOn]
  | cons c cs ih =>
    have hc : ¬ c = sep := fun e => h (e ▸ List.mem_cons_self c cs)
    have hcs : sep ∉ cs := fun m => h (List.mem_cons_of_mem _ m)
    simp only [List.cons_append, splitOn, if_neg hc, List.append_eq]
    rw [ih hcs]

/-! Helper lemmas: the worker-pid field of the pid file. -/

theorem runningPids_cons (w : Work) (ws : List Work) :
    runningPids (w :: ws) =
      if w.runing then (w.pid : Int) :: runningPids ws else runningPids ws := by
  by_cases hr : w.runing <;> simp [runningPids, hr]

theorem mem_pidsField (ws : List Work) :
    ∀ i c, c ∈ pidsFieldAux i ws → c = ',' ∨ ∃ d, d < 10 ∧ c = digitChar d := by
  induction ws with
  | nil => intro i c hc; simp [pidsFieldAux] at hc
  | cons w ws ih =>
    intro i c hc
    simp only [pidsFieldAux, List.mem_append] at hc
    rcases hc with hc | hc
    · by_cases hr : w.runing
      · simp only [hr, if_true, List.mem_append] at hc
        rcases hc with hc | hc
        · by_cases hi : 0 < i
          · simp only [hi, if_true, List.mem_singleton] at hc
            exact Or.inl hc
          · simp [hi] at hc
        · exact Or.inr (mem_itoa w.pid c hc)
      · simp [hr] at hc
    · exact ih (i + 1) c hc

theorem colon_not_mem_pidsField (ws : List Work) (i : Nat) : ':' ∉ pidsFieldAux i ws := by
  intro h
  rcases mem_pidsField ws i ':' h with h1 | ⟨d, hd, he⟩
  · exact absurd h1 (by decide)
  · exact (digitChar_spec d hd).2.1 he.symm

theorem pidsField_cons_true (w : Work) (ws : List Work) (i : Nat) (hr : w.runing = true)
    (hi : 0 < i) :
    pidsFieldAux i (w :: ws) = ',' :: (itoa w.pid ++ pidsFieldAux (i + 1) ws) := by
  simp [pidsFieldAux, hr, hi]

theorem pidsField_cons_zero (w : Work) (ws : List Work) (hr : w.runing = true) :
    pidsFieldAux 0 (w :: ws) = itoa w.pid ++ pidsFieldAux 1 ws := by
  simp [pidsFieldAux, hr]

theorem pidsField_cons_false (w : Work) (ws : List Work) (i : Nat) (hr : w.runing = false) :
    pidsFieldAux i (w :: ws) = pidsFieldAux (i + 1) ws := by
  simp [pidsFieldAux, hr]

theorem pidsField_parse (ws : List Work) (hb : ∀ w ∈ ws, w.runing = true → w.pid < 2 ^ 63) :
    ∀ i, 1 ≤ i →
      ((splitOn ',' (pidsFieldAux i ws)).filterMap atoi = runningPids ws) ∧
      (∀ p : Nat, p < 2 ^ 63 →
        (splitOn ',' (itoa p ++ pidsFieldAux i ws)).filterMap atoi =
          (p : Int) :: runningPids ws) := by
  induction ws with
  | nil =>
    intro i hi
    refine ⟨by simp [pidsFieldAux, splitOn, atoi, runningPids], ?_⟩
    intro p hp
    rw [pidsFieldAux, List.append_nil, splitOn_no_sep ',' (itoa p) (comma_not_mem_itoa p)]
    simp [atoi_itoa p hp, runningPids]
  | cons w ws ih =>
    intro i hi
    have hb' : ∀ u ∈ ws, u.runing = true → u.pid < 2 ^ 63 :=
      fun u hu => hb u (List.mem_cons_of_mem _ hu)
    by_cases hr : w.runing
    · have hpid : w.pid < 2 ^ 63 := hb w (List.mem_cons_self _ _) hr
      constructor
      · have hsp : splitOn ',' (pidsFieldAux i (w :: ws)) =
            [] :: splitOn ',' (itoa w.pid ++ pidsFieldAux (i + 1) ws) := by
          rw [pidsField_cons_true w ws i hr (by omega)]
          simp [splitOn]
        have h0 : List.filterMap atoi
              ([] :: splitOn ',' (itoa w.pid ++ pidsFieldAux (i + 1) ws)) =
            List.filterMap atoi (splitOn ',' (itoa w.pid ++ pidsFieldAux (i + 1) ws)) := by
          simp [List.filterMap_cons, atoi]
        rw [hsp, h0, (ih hb' (i + 1) (by omega)).2 w.pid hpid]
        simp [runningPids_cons, hr]
      · intro p hp
        rw [pidsField_cons_true w ws i hr (by omega),
          splitOn_sep_append ',' (itoa p) _ (comma_not_mem_itoa p), List.filterMap_cons,
          atoi_itoa p hp, (ih hb' (i + 1) (by omega)).2 w.pid hpid]
        simp [runningPids_cons, hr]
    · have hrf : w.runing = false := by simp [hr]
      constructor
      · rw [pidsField_cons_false w ws i hrf, (ih hb' (i + 1) (by omega)).1]
        simp [runningPids_cons, hrf]
      · intro p hp
        rw [pidsField_cons_false w ws i hrf, (ih hb' (i + 1) (by omega)).2 p hp]
        simp [runningPids_cons, hrf]

theorem getWorkPids_logPid (m : Nat) (pipe : List Char) (cmd : List Work)
    (hp : ':' ∉ pipe) (hb : ∀ w ∈ cmd, w.runing = true → w.pid < 2 ^ 63) :
    getWorkPids (some (logPidContent m pipe cmd)) = some (runningPids cmd) := by
  have hpre : ':' ∉ itoa m ++ '|' :: pipe := by
    intro hmem
    rcases List.mem_append.mp hmem with h1 | h2
    · exact colon_not_mem_itoa m h1
    · rcases List.mem_cons.mp h2 with h3 | h4
      · exact absurd h3 (by decide)
      · exact hp h4
  have hsplit : splitOn ':' (logPidContent m pipe cmd) =
      [itoa m ++ '|' :: pipe, pidsFieldAux 0 cmd] := by
    have hshape : logPidContent m pipe cmd =
        (itoa m ++ '|' :: pipe) ++ ':' :: pidsFieldAux 0 cmd := by
      simp [logPidContent]
    rw [hshape, splitOn_sep_append ':' _ _ hpre,
      splitOn_no_sep ':' _ (colon_not_mem_pidsField cmd 0)]
  simp only [getWorkPids, hsplit]
  show some (List.filterMap atoi (splitOn ',' (pidsFieldAux 0 cmd))) = some (runningPids cmd)
  cases cmd with
  | nil => simp [pidsFieldAux, splitOn, atoi, runningPids]
  | cons w ws =>
    have hb' : ∀ u ∈ ws, u.runing = true → u.pid < 2 ^ 63 :=
      fun u hu => hb u (List.mem_cons_of_mem _ hu)
    by_cases hr : w.runing
    · rw [pidsField_cons_zero w ws hr,
        (pidsField_parse ws hb' 1 le_rfl).2 w.pid (hb w (List.mem_cons_self _ _) hr)]
      simp [runningPids_cons, hr]
    · have hrf : w.runing = false := by simp [hr]
      rw [pidsField_cons_false w ws 0 hrf]
      simp only [Nat.zero_add]
      rw [(pidsField_parse ws hb' 1 le_rfl).1]
      simp [runningPids_cons, hrf]

/-! Helper lemmas: instance-registry lines, the drain loop, and event counts. -/

theorem mgrLines_join (ls : List (List Char))
    (h : ∀ e ∈ ls, e ≠ [] ∧ trimSpace e = e ∧ '\n' ∉ e) :
    mgrLines (linesJoin ls) = ls := by
  induction ls with
  | nil => rfl
  | cons e ls ih =>
    obtain ⟨hne, htr, hnl⟩ := h e (List.mem_cons_self _ _)
    have ih' := ih fun x hx => h x (List.mem_cons_of_mem _ hx)
    show mgrLines (e ++ '\n' :: linesJoin ls) = e :: ls
    unfold mgrLines at ih' ⊢
    rw [splitOn_sep_append '\n' e _ hnl, List.map_cons, htr, List.filter_cons]
    simp only [decide_not] at ih'
    simp [hne, ih']

theorem clearCall_not_mem_drainLoop (b : Bool) (cmd : List Work) (arr : Nat → Nat) :
    ∀ rem i ex, Event.clearCall ∉ drainLoop b cmd arr rem i ex := by
  intro rem
  induction rem with
  | zero => intro i ex h; simp [drainLoop] at h
  | succ rem ih =>
    intro i ex h
    simp only [drainLoop] at h
    by_cases hb : b
    · rw [if_pos hb] at h
      rcases List.mem_append.mp h with h1 | h2
      · simp at h1
      · exact ih (i + 1) _ h2
    · rw [if_neg hb] at h
      simp at h

theorem signal_inj : Function.Injective (Event.signal sigint) := by
  intro a b h
  injection h

theorem startCall_not_mem_signals (pids : List Int) :
    Event.startCall ∉ pids.map (Event.signal sigint) := by
  intro h
  obtain ⟨p, _, he⟩ := List.mem_map.mp h
  exact Event.noConfusion he

theorem exitProcess_not_mem_signals (pids : List Int) (c : Nat) :
    Event.exitProcess c ∉ pids.map (Event.signal sigint) := by
  intro h
  obtain ⟨p, _, he⟩ := List.mem_map.mp h
  exact Event.noConfusion he

theorem sleep_not_mem_signals (pids : List Int) (ms : Nat) :
    Event.sleep ms ∉ pids.map (Event.signal sigint) := by
  intro h
  obtain ⟨p, _, he⟩ := List.mem_map.mp h
  exact Event.noConfusion he

/-! Claim theorems. -/

/-- C1: with two tracked running units and the second-spawned exiting first,
`checkWorkProcess` drains once per unit (two drains), but the first log line
— triggered by unit `b`'s exit — reports the loop-index unit's state instead:
an empty exit code (unit 0's `ProcessState` is still nil) and no key at all,
and after the loop every registry entry still has `runing = true` (the
assignment `w.runing = false` mutates a local copy of the struct).  This
refutes the claim's "logs that unit's key and exit code in the order
completions arrive" and "transitions to running=false exactly once per
unit". -/
theorem checkWorkProcess_misreports :
    checkWorkProcess true [wA, wB] swapArrival =
      ([Event.drain, Event.log (exitMsg []), Event.drain, Event.log (exitMsg ['2', '0']),
        Event.clearCall], [wA, wB]) ∧
    (([wA, wB].all fun w => w.runing) = true) ∧
    (checkWorkProcess true [wA, wB] swapArrival).1.count Event.drain = 2 := by
  refine ⟨by decide, by decide, by decide⟩

/-- C2: the five precedence rules of `parseCommandLine`, and the uniqueness
of the resolved mode: a bare invocation resolves to Start; a non-empty name
implies install; develop/stop/reload/daemon/install/service force start off;
install forces daemon off; service forces master on; `Command()`'s if/else-if
chain yields exactly one mode; `-name=foo` alone resolves to Install and
`-install -daemon` resolves to Install with daemon suppressed. -/
theorem parseCommandLine_precedence :
    (parseCommandLine true false {} = { ({} : CmdFlags) with start := true } ∧
      resolveMode (parseCommandLine true false {}) = Mode.start) ∧
    (∀ (na ha : Bool) (g : CmdFlags), g.name ≠ [] →
      (parseCommandLine na ha g).install = true) ∧
    (∀ (na ha : Bool) (g : CmdFlags),
      (g.develop = true ∨ g.stop = true ∨ g.reload = true ∨ g.daemon = true ∨
        g.install = true ∨ g.service = true) →
      (parseCommandLine na ha g).start = false) ∧
    (∀ (na ha : Bool) (g : CmdFlags), (parseCommandLine na ha g).install = true →
      (parseCommandLine na ha g).daemon = false) ∧
    (∀ (na ha : Bool) (g : CmdFlags), g.service = true →
      (parseCommandLine na ha g).master = true) ∧
    (∀ g : CmdFlags, ∃! m : Mode, resolveMode g = m) ∧
    (resolveMode (parseCommandLine false false { name := ['f'] }) = Mode.install ∧
      resolveMode (parseCommandLine false false { install := true, daemon := true }) =
        Mode.install ∧
      (parseCommandLine false false { install := true, daemon := true }).daemon = false) := by
  refine ⟨⟨by decide, by decide⟩, ?_, ?_, ?_, ?_,
    fun g => ⟨resolveMode g, rfl, fun y hy => hy.symm⟩, by decide, by decide, by decide⟩
  · intro na ha g hname
    obtain ⟨dev, st, stp, rld, dmn, uni, frc, ins, svc, mst, nm, cnf, ak, pp, pid⟩ := g
    simp only at hname
    cases na <;> cases ha <;> cases ins <;>
      simp_all [parseCommandLine, stepNoArgs, stepName, stepScan, stepInstallDaemon,
        stepStartOff, stepService, apply_ite CmdFlags.install, apply_ite CmdFlags.daemon,
        apply_ite CmdFlags.service, apply_ite CmdFlags.name]
  · intro na ha g hdis
    obtain ⟨dev, st, stp, rld, dmn, uni, frc, ins, svc, mst, nm, cnf, ak, pp, pid⟩ := g
    simp only at hdis
    by_cases hnm : nm = [] <;> rcases hdis with h | h | h | h | h | h <;>
      cases na <;> cases ha <;> cases ins <;>
      simp_all [parseCommandLine, stepNoArgs, stepName, stepScan, stepInstallDaemon,
        stepStartOff, stepService, apply_ite CmdFlags.install, apply_ite CmdFlags.daemon,
        apply_ite CmdFlags.start, apply_ite CmdFlags.service]
  · intro na ha g hinst
    obtain ⟨dev, st, stp, rld, dmn, uni, frc, ins, svc, mst, nm, cnf, ak, pp, pid⟩ := g
    by_cases hnm : nm = [] <;> cases na <;> cases ha <;> cases ins <;>
      simp_all [parseCommandLine, stepNoArgs, stepName, stepScan, stepInstallDaemon,
        stepStartOff, stepService, apply_ite CmdFlags.install, apply_ite CmdFlags.daemon,
        apply_ite CmdFlags.service]
  · intro na ha g hserv
    obtain ⟨dev, st, stp, rld, dmn, uni, frc, ins, svc, mst, nm, cnf, ak, pp, pid⟩ := g
    simp only at hserv
    by_cases hnm : nm = [] <;> cases na <;> cases ha <;> cases ins <;>
      simp_all [parseCommandLine, stepNoArgs, stepName, stepScan, stepInstallDaemon,
        stepStartOff, stepService, apply_ite CmdFlags.master, apply_ite CmdFlags.install,
        apply_ite CmdFlags.daemon, apply_ite CmdFlags.service]

/-- C2 witness: concrete instances of the precedence rules. -/
theorem parseCommandLine_precedence_witness :
    (parseCommandLine false false { name := ['f'] }).install = true ∧
    (parseCommandLine false false { daemon := true }).start = false ∧
    (parseCommandLine false false { install := true, daemon := true }).daemon = false ∧
    (parseCommandLine false false { service := true }).master = true :=
  ⟨parseCommandLine_precedence.2.1 false false { name := ['f'] } (by decide),
    parseCommandLine_precedence.2.2.1 false false { daemon := true }
      (Or.inr (Or.inr (Or.inr (Or.inl rfl)))),
    parseCommandLine_precedence.2.2.2.1 false false { install := true, daemon := true }
      (by decide),
    parseCommandLine_precedence.2.2.2.2.1 false false { service := true } rfl⟩

/-- C3 counterexample: the claim quantifies over every pipe name, but with
pipe name `:7` and zero workers the written record reads back as `[7]`, not
the empty worker set — and `getWorkPids` never returns the master pid or the
pipe name at all.  So `write` then `read` does not reproduce the
`(masterPid, pipeName, workerPids)` set as claimed. -/
theorem pidRecord_roundtrip_cex :
    getWorkPids (some (logPidContent 1 [':', '7'] [])) = some [7] ∧
    runningPids [] = [] ∧
    getWorkPids (some (logPidContent 1 [':', '7'] [])) ≠ some (runningPids []) := by
  refine ⟨by decide, rfl, by decide⟩

/-- C3 amended: for every master pid, every pipe name free of `:` (the code
always uses the master's decimal pid string), and every worker list whose
running pids fit in 64 bits, writing the pid record with `logPid` and reading
it back with `getWorkPids` reproduces exactly the running workers' pid list —
for 0, 1, and N workers; the master pid and pipe name are written but the
reader returns only the worker pids. -/
theorem pidRecord_roundtrip_amended (m : Nat) (pipe : List Char) (cmd : List Work)
    (hp : ':' ∉ pipe) (hb : ∀ w ∈ cmd, w.runing = true → w.pid < 2 ^ 63) :
    getWorkPids (some (logPidContent m pipe cmd)) = some (runningPids cmd) :=
  getWorkPids_logPid m pipe cmd hp hb

/-- C3 witness: a two-worker record (and a dead worker skipped by the
writer) round-trips to exactly the running pids. -/
theorem pidRecord_roundtrip_amended_witness :
    ':' ∉ ['9'] ∧
    getWorkPids (some (logPidContent 1234 ['9']
      [{ key := ['x'], runing := false, pid := 7, exitCode := 0, started := true },
       { key := ['a'], runing := true, pid := 2001, exitCode := 0, started := true },
       { key := ['b'], runing := true, pid := 2002, exitCode := 0, started := true }])) =
      some [2001, 2002] := by
  refine ⟨by decide, ?_⟩
  have h := pidRecord_roundtrip_amended 1234 ['9']
    [{ key := ['x'], runing := false, pid := 7, exitCode := 0, started := true },
     { key := ['a'], runing := true, pid := 2001, exitCode := 0, started := true },
     { key := ['b'], runing := true, pid := 2002, exitCode := 0, started := true }]
    (by decide) (by decide)
  rw [h]
  decide

theorem signal_not_mem_reload_tail (p : Int) :
    Event.signal sigint p ∉ [Event.sleep 30, Event.startCall] := by
  intro hmem
  rcases List.mem_cons.mp hmem with h | hmem2
  · exact Event.noConfusion h
  · rcases List.mem_cons.mp hmem2 with h | hmem3
    · exact Event.noConfusion h
    · simp at hmem3

theorem signal_not_mem_stop_tail (p : Int) :
    Event.signal sigint p ∉ [Event.sleep 30, Event.exitProcess 0] := by
  intro hmem
  rcases List.mem_cons.mp hmem with h | hmem2
  · exact Event.noConfusion h
  · rcases List.mem_cons.mp hmem2 with h | hmem3
    · exact Event.noConfusion h
    · simp at hmem3

/-- C4: whatever the pid file parses to, `reload()` emits exactly one
`SIGINT` per recorded pid occurrence (none for a pid absent from the
record), then one 30 ms sleep, then exactly one `start()` call, in that
order. -/
theorem reload_signal_contract (file : Option (List Char)) (pids : List Int)
    (h : getWorkPids file = some pids) :
    ∃ tr, reloadTrace file = some tr ∧
      tr = pids.map (Event.signal sigint) ++ [Event.sleep 30, Event.startCall] ∧
      (∀ p : Int, tr.count (Event.signal sigint p) = pids.count p) ∧
      (∀ p : Int, p ∉ pids → tr.count (Event.signal sigint p) = 0) ∧
      tr.count Event.startCall = 1 ∧ tr.count (Event.sleep 30) = 1 := by
  refine ⟨pids.map (Event.signal sigint) ++ [Event.sleep 30, Event.startCall],
    by simp [reloadTrace, h], rfl, ?_, ?_, ?_, ?_⟩
  · intro p
    rw [List.count_append, List.count_map_of_injective _ _ signal_inj,
      List.count_eq_zero.mpr (signal_not_mem_reload_tail p)]
    omega
  · intro p hp
    rw [List.count_append, List.count_map_of_injective _ _ signal_inj,
      List.count_eq_zero.mpr hp, List.count_eq_zero.mpr (signal_not_mem_reload_tail p)]
  · rw [List.count_append, List.count_eq_zero.mpr (startCall_not_mem_signals pids)]
    decide
  · rw [List.count_append, List.count_eq_zero.mpr (sleep_not_mem_signals pids 30)]
    decide

/-- C4 witness: for the record `1|1:2001,2002`, reload signals 2001 and 2002
once each, sleeps, then starts. -/
theorem reload_signal_contract_witness :
    getWorkPids (some ("1|1:2001,2002".data)) = some [2001, 2002] ∧
    reloadTrace (some ("1|1:2001,2002".data)) =
      some [Event.signal sigint 2001, Event.signal sigint 2002, Event.sleep 30,
        Event.startCall] := by
  refine ⟨by decide, ?_⟩
  obtain ⟨tr, h1, h2, _⟩ :=
    reload_signal_contract (some ("1|1:2001,2002".data)) [2001, 2002] (by decide)
  rw [h1, h2]
  rfl

/-- C5: whatever the pid file parses to, `stop()` emits one `SIGINT` per
recorded pid occurrence, sleeps the fixed 30 ms grace window, then exits
with code 0 as its final action — the trace is fixed by the record alone, so
the exit does not depend on whether the signalled processes exited. -/
theorem stop_signal_contract (file : Option (List Char)) (pids : List Int)
    (h : getWorkPids file = some pids) :
    ∃ tr, stopTrace file = some tr ∧
      tr = pids.map (Event.signal sigint) ++ [Event.sleep 30, Event.exitProcess 0] ∧
      (∀ p : Int, tr.count (Event.signal sigint p) = pids.count p) ∧
      tr.count (Event.exitProcess 0) = 1 ∧ tr.count (Event.sleep 30) = 1 ∧
      tr.getLast? = some (Event.exitProcess 0) := by
  refine ⟨pids.map (Event.signal sigint) ++ [Event.sleep 30, Event.exitProcess 0],
    by simp [stopTrace, h], rfl, ?_, ?_, ?_, ?_⟩
  · intro p
    rw [List.count_append, List.count_map_of_injective _ _ signal_inj,
      List.count_eq_zero.mpr (signal_not_mem_stop_tail p)]
    omega
  · rw [List.count_append, List.count_eq_zero.mpr (exitProcess_not_mem_signals pids 0)]
    decide
  · rw [List.count_append, List.count_eq_zero.mpr (sleep_not_mem_signals pids 30)]
    decide
  · rw [List.getLast?_append]
    rfl

/-- C5 witness: the spec's concrete record `1234|abc:2001,2002`: both pids
are signalled, then the grace sleep, then exit 0. -/
theorem stop_signal_contract_witness :
    getWorkPids (some ("1234|abc:2001,2002".data)) = some [2001, 2002] ∧
    stopTrace (some ("1234|abc:2001,2002".data)) =
      some [Event.signal sigint 2001, Event.signal sigint 2002, Event.sleep 30,
        Event.exitProcess 0] := by
  refine ⟨by decide, ?_⟩
  obtain ⟨tr, h1, h2, _⟩ :=
    stop_signal_contract (some ("1234|abc:2001,2002".data)) [2001, 2002] (by decide)
  rw [h1, h2]
  rfl

/-- C6: `doStart` reports no error to its caller for any spawn outcome, and
records every configured unit with `runing = true` — including units whose
process failed to start (`started = false`): spawn failure is not surfaced
as a distinguishable error. -/
theorem doStart_silent_spawn_failure (confs : List Conf) (spawnOk : List Char → Bool)
    (pidOf : List Char → Nat) :
    (doStart confs spawnOk pidOf).1 = none ∧
    (∀ w ∈ (doStart confs spawnOk pidOf).2, w.runing = true ∧ w.started = spawnOk w.key) ∧
    (doStart confs spawnOk pidOf).2.map Work.key = confs.map Conf.key := by
  refine ⟨rfl, ?_, ?_⟩
  · intro w hw
    simp only [doStart, List.mem_map] at hw
    obtain ⟨c, _, rfl⟩ := hw
    exact ⟨rfl, rfl⟩
  · simp [doStart, List.map_map]

/-- C6 witness: a unit whose spawn fails is still registered running. -/
theorem doStart_silent_spawn_failure_witness :
    (doStart [⟨['a']⟩] (fun _ => false) (fun _ => 7)).1 = none ∧
    ({ key := ['a'], runing := true, pid := 7, exitCode := 0, started := false } : Work).runing
      = true :=
  ⟨(doStart_silent_spawn_failure [⟨['a']⟩] (fun _ => false) (fun _ => 7)).1,
    ((doStart_silent_spawn_failure [⟨['a']⟩] (fun _ => false) (fun _ => 7)).2.1
      { key := ['a'], runing := true, pid := 7, exitCode := 0, started := false }
      (by decide)).1⟩

/-- C7: for a clean config path, repeated `logMgr` appends from a missing
registry file leave exactly one copy of the path (no duplicate lines, any
number of repeats); with `-force` set the duplicate check is bypassed and the
file is truncated to the single path regardless of its prior content; and
`syncMgr` truncates and rewrites the file from the provided list alone,
recovering exactly that list of lines. -/
theorem instanceRegistry_contract (cf : List Char)
    (h1 : cf ≠ []) (h2 : trimSpace cf = cf) (h3 : '\n' ∉ cf) :
    (∀ k : Nat, appendN cf (k + 1) = some (cf ++ ['\n']) ∧
      (mgrLines ((appendN cf (k + 1)).getD [])).Nodup) ∧
    (∀ file : Option (List Char), logMgr true cf file = some (cf ++ ['\n'])) ∧
    (∀ (content : List Char) (ls : List (List Char)),
      syncMgr (some ls) (some content) = some (linesJoin ls)) ∧
    (∀ ls : List (List Char), (∀ e ∈ ls, e ≠ [] ∧ trimSpace e = e ∧ '\n' ∉ e) →
      mgrLines (linesJoin ls) = ls) := by
  have hlines : mgrLines (cf ++ ['\n']) = [cf] := by
    have hj : cf ++ ['\n'] = linesJoin [cf] := by simp [linesJoin]
    rw [hj, mgrLines_join [cf] ?_]
    intro e he
    simp only [List.mem_singleton] at he
    subst he
    exact ⟨h1, h2, h3⟩
  have hmain : ∀ k : Nat, appendN cf (k + 1) = some (cf ++ ['\n']) := by
    intro k
    induction k with
    | zero => simp [appendN, logMgr, mgrList]
    | succ k ih =>
      show logMgr false cf (appendN cf (k + 1)) = _
      rw [ih]
      simp [logMgr, mgrList, hlines]
  refine ⟨fun k => ⟨hmain k, ?_⟩, fun file => by simp [logMgr, mgrList],
    fun content ls => rfl, fun ls hls => mgrLines_join ls hls⟩
  rw [hmain k]
  simp [hlines]

/-- C7 witness: two appends of `a.conf` leave a single line; force rewrites
to the single path; sync recovers the provided list. -/
theorem instanceRegistry_contract_witness :
    appendN "a.conf".data 2 = some ("a.conf".data ++ ['\n']) ∧
    logMgr true "a.conf".data (some ("a.conf\nb.conf\n".data)) =
      some ("a.conf".data ++ ['\n']) ∧
    mgrLines (linesJoin ["a.conf".data, "b.conf".data]) = ["a.conf".data, "b.conf".data] :=
  ⟨((instanceRegistry_contract "a.conf".data (by decide) (by decide) (by decide)).1 1).1,
    (instanceRegistry_contract "a.conf".data (by decide) (by decide) (by decide)).2.1
      (some ("a.conf\nb.conf\n".data)),
    (instanceRegistry_contract "a.conf".data (by decide) (by decide) (by decide)).2.2.2
      ["a.conf".data, "b.conf".data] (by decide)⟩

/-- C8 counterexample: `removePid` forwards `os.Remove`, which returns a
`*PathError` when the pid file is missing — so a call with the file absent
does return an error, refuting "missing-file is not an error". -/
theorem removePid_missing_is_error :
    removePid false = (some (), false) ∧ (removePid false).1 ≠ none := by
  refine ⟨rfl, by decide⟩

/-- C8 amended: `removePid` succeeds when the file exists; when the file is
missing it returns an error; the file-system state is idempotent (the file is
absent after any call, and a repeated call changes nothing) even though the
repeated call's error result differs — the sole caller, `clear()`, discards
the result. -/
theorem removePid_amended :
    removePid true = (none, false) ∧ removePid false = (some (), false) ∧
    (∀ b : Bool, removePid (removePid b).2 = (some (), false)) ∧
    (∀ b : Bool, (removePid b).2 = false) := by
  refine ⟨rfl, rfl, ?_, ?_⟩ <;> intro b <;> cases b <;> rfl

/-- C9: `clear()` is idempotent (a second call changes nothing), a first call
on an uncleared state runs each teardown effect exactly once, a call on a
cleared state is a no-op, and `checkWorkProcess` — whether it completes all
units or stops because `running` was cleared — calls `clear()` exactly once
in its trace. -/
theorem cleanup_contract :
    (∀ s : CleanupState, clear (clear s) = clear s) ∧
    (∀ s : CleanupState, s.isClear = false →
      (clear s).logsCleared = s.logsCleared + 1 ∧ (clear s).idsCleared = s.idsCleared + 1 ∧
      (clear s).pidRemoves = s.pidRemoves + 1 ∧ (clear s).isClear = true) ∧
    (∀ s : CleanupState, s.isClear = true → clear s = s) ∧
    (∀ (b : Bool) (cmd : List Work) (arr : Nat → Nat),
      (checkWorkProcess b cmd arr).1.count Event.clearCall = 1) := by
  refine ⟨?_, ?_, ?_, ?_⟩
  · intro s
    by_cases hs : s.isClear <;> simp [clear, hs]
  · intro s hs
    simp [clear, hs]
  · intro s hs
    simp [clear, hs]
  · intro b cmd arr
    show (drainLoop b cmd arr ((cmd.filter (·.runing)).length) 0 [] ++
      [Event.clearCall]).count Event.clearCall = 1
    rw [List.count_append,
      List.count_eq_zero.mpr (clearCall_not_mem_drainLoop b cmd arr _ 0 [])]
    decide

/-- C9 witness: concrete cleanup state and a concrete monitor run. -/
theorem cleanup_contract_witness :
    clear (clear ⟨false, 0, 0, 0⟩) = clear (⟨false, 0, 0, 0⟩ : CleanupState) ∧
    (clear (⟨false, 0, 0, 0⟩ : CleanupState)).pidRemoves = 0 + 1 ∧
    (checkWorkProcess true [wA, wB] swapArrival).1.count Event.clearCall = 1 :=
  ⟨cleanup_contract.1 ⟨false, 0, 0, 0⟩,
    (cleanup_contract.2.1 ⟨false, 0, 0, 0⟩ rfl).2.2.1,
    cleanup_contract.2.2.2 true [wA, wB] swapArrival⟩

/-- C10: `getWorkPids` returns normally (an empty pid list) when the pid
file is missing, but panics — indexing field 1 of a one-field split — on any
existing file whose content has no `:`, the empty file included: a stop or
reload against a corrupt or truncated pid file crashes. -/
theorem getWorkPids_corrupt_panics :
    getWorkPids none = some [] ∧
    (∀ content : List Char, ':' ∉ content → getWorkPids (some content) = none) ∧
    getWorkPids (some []) = none := by
  refine ⟨rfl, ?_, rfl⟩
  intro content h
  simp only [getWorkPids, splitOn_no_sep ':' content h]
  rfl

/-- C10 witness: a one-character colon-free pid file panics the reader. -/
theorem getWorkPids_corrupt_panics_witness : getWorkPids (some ['a']) = none :=
  getWorkPids_corrupt_panics.2.1 ['a'] (by decide)

end Bast
